import Mathlib

/-!
Shallow embedding of the cavity-based Delaunay mesh refinement transformation
from `lonestar/scientific/cpu/delaunayrefinement/Cavity.h` (the Galois
project), together with proofs of the specified properties of its operations
`initialize`, `build`, `expand`, `computePost` and `update`.

The collaborator types `Element`, `Edge`, `Tuple`, the graph store and the
pre/post subgraphs are declared in headers that are not part of the verified
sources; they are modelled from the specification at their interface, with
executable placeholder computations for the numeric geometric caches (the
development treats those numeric values as opaque data).
-/

namespace Galois

/-- A graph node: an opaque stable identifier into the graph store
(modelled from the spec: `GraphNode` is "an opaque stable identifier"). -/
abbrev GNode := Nat

/-- Modelled from the spec: `Point / Tuple` is an immutable 2D geometric
coordinate with exact equality (`Tuple.h` is not under the verified sources). -/
abbrev Tuple := Int × Int

/-- Modelled from the spec: an `Edge` is a relation between two adjacent
elements, identified by the two shared points (`Element.h` is not under the
verified sources). -/
abbrev Edge := Tuple × Tuple

/-- Modelled from the spec: a mesh `Element` is a triangle (3 vertices) or a
segment (2 vertices), with a cached obtuseness witness, a cached circumcenter,
a cached squared circumradius and a cached local-validity bit
(`Element.h` is not under the verified sources). -/
structure Element where
  pts : List Tuple
  obtuse : Option Tuple
  center : Tuple
  radiusSq : Int
  bad : Bool
deriving DecidableEq

instance : Inhabited Element :=
  ⟨{ pts := [], obtuse := none, center := (0, 0), radiusSq := 0, bad := false }⟩

namespace Element

/-- `dim()`: 2 for a segment, 3 for a triangle (the number of vertices). -/
def dim (e : Element) : Nat := e.pts.length

/-- `isObtuse()`: whether the element is locally invalid (obtuse). -/
def isObtuse (e : Element) : Bool := e.obtuse.isSome

/-- `getObtuse()`: the vertex at the obtuse angle. -/
def getObtuse (e : Element) : Tuple := e.obtuse.getD (0, 0)

/-- `getCenter()`: the cached circumcenter. -/
def getCenter (e : Element) : Tuple := e.center

/-- `getPoint(i)`: the i-th vertex. -/
def getPoint (e : Element) (i : Nat) : Tuple := e.pts.getD i (0, 0)

/-- `isBad()`: whether the element is locally invalid. -/
def isBad (e : Element) : Bool := e.bad

/-- Squared euclidean distance between two points. -/
def distSq (a b : Tuple) : Int := (a.1 - b.1) ^ 2 + (a.2 - b.2) ^ 2

/-- Modelled from the spec: the in-circle predicate of an element, testing a
point against the element's cached circumcircle. -/
def inCircle (e : Element) (p : Tuple) : Bool := distSq e.center p ≤ e.radiusSq

/-- The vertices shared by two elements, in the first element's order. -/
def sharedPts (a b : Element) : List Tuple :=
  a.pts.filter (fun p => decide (p ∈ b.pts))

/-- Modelled from the spec: `getRelatedEdge(other)` is the edge shared by the
two elements, "computed on demand as the edge shared by element A and
element B". -/
def getRelatedEdge (a b : Element) : Edge :=
  ((sharedPts a b).getD 0 (0, 0), (sharedPts a b).getD 1 (0, 0))

/-- Modelled from the spec: `isRelated(other)` holds when the two elements
share an edge (at least two vertices). -/
def isRelated (a b : Element) : Bool := 2 ≤ (sharedPts a b).length

end Element

/-- `EdgeTuple`: a boundary-edge record `(src, dst, edge data)` as stored in
`connections` and in the post subgraph. -/
structure EdgeTuple where
  src : GNode
  dst : GNode
  data : Edge
deriving DecidableEq

/-- Modelled from the spec: the graph store owns the element payload of every
created node and the adjacency lists; node identifiers stay valid until
explicitly removed; `createNode` assigns fresh identities. -/
structure Graph where
  present : List GNode
  data : List (GNode × Element)
  edges : List (GNode × GNode)
  nextId : GNode
deriving DecidableEq

namespace Graph

/-- `containsNode(n)`: the locked existence check. -/
def containsNode (g : Graph) (n : GNode) : Bool := decide (n ∈ g.present)

/-- `getData(n)`: the element payload associated with a node. -/
def getData (g : Graph) (n : GNode) : Element :=
  match g.data.find? (fun p => p.1 == n) with
  | some p => p.2
  | none => default

/-- Neighbor iteration (`edge_begin` .. `edge_end` plus `getEdgeDst`):
the other endpoints of the undirected edges incident to `n`. -/
def neighbors (g : Graph) (n : GNode) : List GNode :=
  g.edges.filterMap (fun e =>
    if e.1 = n then some e.2 else if e.2 = n then some e.1 else none)

/-- `createNode(payload)`: always succeeds and assigns a fresh identity. -/
def createNode (g : Graph) (e : Element) : GNode × Graph :=
  (g.nextId, { g with nextId := g.nextId + 1, data := g.data ++ [(g.nextId, e)] })

/-- `removeNode(n)`: remove the node and every edge incident to it. -/
def removeNode (g : Graph) (n : GNode) : Graph :=
  { g with present := g.present.filter (fun m => decide (m ≠ n)),
           edges := g.edges.filter (fun e => decide (e.1 ≠ n ∧ e.2 ≠ n)) }

/-- `addNode(n)`: insert a (previously created) node into the graph. -/
def addNode (g : Graph) (n : GNode) : Graph :=
  { g with present := g.present ++ [n] }

/-- `addEdge(src, dst)`: insert an edge. -/
def addEdge (g : Graph) (a b : GNode) : Graph :=
  { g with edges := g.edges ++ [(a, b)] }

end Graph

/-- Failure outcomes of the fallible operations: `die` models the fatal
`GALOIS_DIE` invariant violation (modelled from the spec: the fatal diagnostic
identifies the offending node; the macro body is not under the verified
sources), `outOfFuel` is the embedding artifact for an unbounded loop that has
not yet finished within the given fuel. -/
inductive Fatal where
  | die (offending : GNode)
  | outOfFuel
deriving DecidableEq

/-- Result of a fallible cavity operation. -/
inductive Res (α : Type) where
  | ok (a : α)
  | fatal (e : Fatal)
deriving DecidableEq

/-- The transient per-iteration cavity state: center point, anchor node,
depth-first frontier stack, the `pre` subgraph (nodes to delete), the `post`
subgraph (nodes and edges to insert), the deduplicated boundary
`connections`, and the cached anchor dimension. -/
structure Cavity where
  center : Tuple
  centerNode : GNode
  frontier : List GNode
  pre : List GNode
  postNodes : List GNode
  postEdges : List EdgeTuple
  connections : List EdgeTuple
  dim : Nat
deriving DecidableEq

/-- The loop-body test of `Cavity::getOpposite`: the edge shared with the
neighbor contains the element's obtuse point at neither endpoint. -/
def avoidsObtuseB (g : Graph) (node nb : GNode) : Bool :=
  let element := g.getData node
  let elementTuple := element.getObtuse
  let edgeData := element.getRelatedEdge (g.getData nb)
  decide (elementTuple ≠ edgeData.1 ∧ elementTuple ≠ edgeData.2)

/-- `Cavity::getOpposite(node)`: the first neighbor of `node` whose shared
edge with `node` does not contain `node`'s obtuse point; when no neighbor
qualifies the run dies fatally (`GALOIS_DIE`, reported here as the offending
node). -/
def getOpposite (g : Graph) (node : GNode) : Res GNode :=
  match (g.neighbors node).find? (avoidsObtuseB g node) with
  | some nb => Res.ok nb
  | none => Res.fatal (Fatal.die node)

/-- The obtuse-chasing loop of `Cavity::initialize`: while the current node is
still in the graph and its element is obtuse, jump to the neighbor opposite
the obtuse angle.  `fuel` bounds the number of jumps. -/
def chase (g : Graph) (fuel : Nat) (n : GNode) : Res GNode :=
  if g.containsNode n && (g.getData n).isObtuse then
    match fuel with
    | 0 => Res.fatal Fatal.outOfFuel
    | fuel' + 1 =>
      match getOpposite g n with
      | Res.ok m => chase g fuel' m
      | Res.fatal e => Res.fatal e
  else Res.ok n

/-- `Cavity::initialize(node)`: reset every field of the cavity, chase the
obtuse chain from `node` to its terminal node, and record that node's
circumcenter and dimension, seeding `pre` and `frontier` with it.
(The name `initialize` is reserved in Lean, hence `initCavity`.) -/
def initCavity (g : Graph) (fuel : Nat) (c : Cavity) (node : GNode) : Res Cavity :=
  match chase g fuel node with
  | Res.fatal e => Res.fatal e
  | Res.ok term =>
    let el := g.getData term
    Res.ok { c with
      center := el.getCenter
      centerNode := term
      frontier := [term]
      pre := [term]
      postNodes := []
      postEdges := []
      connections := []
      dim := el.dim }

/-- The three mutually recursive control points of the cavity growth loop:
the `build` drain loop, the per-node iteration over a popped node's
neighbors, and a single `expand(node, next)` step. -/
inductive BuildCall where
  | build (c : Cavity)
  | expandList (c : Cavity) (node : GNode) (nbrs : List GNode)
  | expand (c : Cavity) (node next : GNode)
deriving DecidableEq

/-- One fuel-indexed interpreter for `Cavity::build` / `Cavity::expand`:
`build` pops the back of `frontier` and expands each neighbor of the popped
node; `expand` classifies `next` (the second-encroaching-segment guard plus
the in-circle test), re-anchoring via `initialize(next); build()` when an
encroaching segment is hit, adding `next` to `pre`/`frontier` when it is a
new cavity member, and otherwise recording the deduplicated boundary edge. -/
def run (g : Graph) : Nat → BuildCall → Res Cavity
  | 0, _ => Res.fatal Fatal.outOfFuel
  | fuel + 1, BuildCall.build c =>
    match c.frontier.getLast? with
    | none => Res.ok c
    | some curr =>
      match run g fuel (BuildCall.expandList
          { c with frontier := c.frontier.dropLast } curr (g.neighbors curr)) with
      | Res.fatal e => Res.fatal e
      | Res.ok c2 => run g fuel (BuildCall.build c2)
  | _ + 1, BuildCall.expandList c _ [] => Res.ok c
  | fuel + 1, BuildCall.expandList c node (next :: rest) =>
    match run g fuel (BuildCall.expand c node next) with
    | Res.fatal e => Res.fatal e
    | Res.ok c2 => run g fuel (BuildCall.expandList c2 node rest)
  | fuel + 1, BuildCall.expand c node next =>
    let nextElement := g.getData next
    if (!(c.dim == 2 && nextElement.dim == 2 && next != c.centerNode))
        && nextElement.inCircle c.center then
      if nextElement.dim == 2 && c.dim != 2 then
        match initCavity g fuel c next with
        | Res.fatal e => Res.fatal e
        | Res.ok c2 => run g fuel (BuildCall.build c2)
      else
        if next ∈ c.pre then Res.ok c
        else Res.ok { c with pre := c.pre ++ [next], frontier := c.frontier ++ [next] }
    else
      let edgeData := nextElement.getRelatedEdge (g.getData node)
      let et : EdgeTuple := ⟨node, next, edgeData⟩
      if et ∈ c.connections then Res.ok c
      else Res.ok { c with connections := c.connections ++ [et] }

/-- `Cavity::build()`. -/
def build (g : Graph) (fuel : Nat) (c : Cavity) : Res Cavity :=
  run g fuel (BuildCall.build c)

/-- `Cavity::expand(node, next)` as a standalone step. -/
def expand (g : Graph) (fuel : Nat) (c : Cavity) (node next : GNode) : Res Cavity :=
  run g fuel (BuildCall.expand c node next)

/-- Modelled from the spec: the two-point `Element(center, p)` constructor
used to split a segment around the cavity center (`Element.h` is not under
the verified sources; the numeric caches are placeholder computations). -/
def mkSegmentSplit (a b : Tuple) : Element :=
  { pts := [a, b], obtuse := none,
    center := ((a.1 + b.1) / 2, (a.2 + b.2) / 2),
    radiusSq := Element.distSq a b, bad := false }

/-- Modelled from the spec: the three-point `Element(center, p0, p1)`
constructor used to synthesize a replacement triangle (`Element.h` is not
under the verified sources; the numeric caches are placeholder
computations). -/
def mkTriangle (a b c : Tuple) : Element :=
  { pts := [a, b, c], obtuse := none, center := a,
    radiusSq := Element.distSq a b, bad := false }

/-- One iteration of the `connections` loop of `Cavity::computePost`:
synthesize the replacement element for one boundary edge, link it to the
untouched boundary element on the other side, cross-link it to every
already-synthesized post node it is geometrically related to, and add it to
`post`. -/
def postStep (gc : Graph × Cavity) (tuple : EdgeTuple) : Graph × Cavity :=
  let g := gc.1
  let c := gc.2
  let newElement := mkTriangle c.center tuple.data.1 tuple.data.2
  let other := if tuple.dst ∈ c.pre then tuple.src else tuple.dst
  let otherElement := g.getData other
  let nn := g.createNode newElement
  let newNode := nn.1
  let g1 := nn.2
  let otherEdge := newElement.getRelatedEdge otherElement
  let crossEdges := c.postNodes.filterMap (fun node =>
    let element := g1.getData node
    if element.isRelated newElement then
      some (⟨newNode, node, newElement.getRelatedEdge element⟩ : EdgeTuple)
    else none)
  (g1, { c with
    postEdges := c.postEdges ++ [⟨newNode, other, otherEdge⟩] ++ crossEdges,
    postNodes := c.postNodes ++ [newNode] })

/-- The opening of `Cavity::computePost()`: when the anchor element is a
segment, synthesize the two elements splitting it around `center` and add
them to `post`. -/
def postStart (g : Graph) (c : Cavity) : Graph × Cavity :=
  if (g.getData c.centerNode).dim == 2 then
    let nn1 := g.createNode (mkSegmentSplit c.center ((g.getData c.centerNode).getPoint 0))
    let nn2 := nn1.2.createNode (mkSegmentSplit c.center ((g.getData c.centerNode).getPoint 1))
    (nn2.2, { c with postNodes := c.postNodes ++ [nn1.1, nn2.1] })
  else (g, c)

/-- `Cavity::computePost()`: the segment-splitting opening followed by the
`connections` loop. -/
def computePost (g : Graph) (c : Cavity) : Graph × Cavity :=
  c.connections.foldl postStep (postStart g c)

/-- One iteration of the insertion loop of `Cavity::update`: add the post
node to the graph and push it to the context when its element is still
locally invalid. -/
def addStep (p : Graph × List GNode) (n : GNode) : Graph × List GNode :=
  let g' := p.1.addNode n
  let element := g'.getData n
  (g', if element.isBad then p.2 ++ [n] else p.2)

/-- `Cavity::update(node, ctx)`: remove every `pre` node, add every `post`
node (pushing to the context each inserted element that is still bad), add
every recorded `post` edge, and re-queue the originating node if the graph
still contains it.  The context is modelled as the list of pushed nodes. -/
def update (g : Graph) (c : Cavity) (node : GNode) (ctx : List GNode) :
    Graph × List GNode :=
  let g1 := c.pre.foldl Graph.removeNode g
  let g2ctx := c.postNodes.foldl addStep (g1, ctx)
  let g3 := c.postEdges.foldl (fun h e => h.addEdge e.src e.dst) g2ctx.1
  (g3, if g3.containsNode node then g2ctx.2 ++ [node] else g2ctx.2)

/-! ### Helper lemmas about the obtuse chase -/

/-- The cavity state produced by a successful chase. -/
def seededCavity (g : Graph) (term : GNode) : Cavity :=
  { center := (g.getData term).getCenter
    centerNode := term
    frontier := [term]
    pre := [term]
    postNodes := []
    postEdges := []
    connections := []
    dim := (g.getData term).dim }

/-- The empty cavity used as the starting state of concrete runs. -/
def emptyCavity : Cavity :=
  { center := (0, 0), centerNode := 0, frontier := [], pre := [], postNodes := [],
    postEdges := [], connections := [], dim := 0 }

/-- A one-triangle graph: node 0 carries a non-obtuse bad triangle. -/
def gOne : Graph :=
  { present := [0]
    data := [(0, { pts := [(0, 0), (2, 0), (0, 2)], obtuse := none,
                   center := (1, 1), radiusSq := 2, bad := true })]
    edges := []
    nextId := 1 }

/-- The predicate `getOpposite` searches for: the shared edge with the
neighbor avoids the element's obtuse point. -/
def avoidsObtuse (g : Graph) (node nb : GNode) : Prop :=
  (g.getData node).getObtuse ≠
      ((g.getData node).getRelatedEdge (g.getData nb)).1 ∧
    (g.getData node).getObtuse ≠
      ((g.getData node).getRelatedEdge (g.getData nb)).2

instance (g : Graph) (node nb : GNode) : Decidable (avoidsObtuse g node nb) := by
  unfold avoidsObtuse
  infer_instance

/-- A graph whose node 0 is an obtuse triangle none of whose neighbors (there
are none) avoids the obtuse point: `getOpposite` dies on it. -/
def gStuck : Graph :=
  { present := [0]
    data := [(0, { pts := [(0, 0), (4, 0), (1, 1)], obtuse := some (1, 1),
                   center := (2, 0), radiusSq := 4, bad := true })]
    edges := []
    nextId := 1 }

/-- The boundary-edge tuple `expand(node, next)` records when `next` is not a
cavity member. -/
def boundaryTuple (g : Graph) (node next : GNode) : EdgeTuple :=
  ⟨node, next, (g.getData next).getRelatedEdge (g.getData node)⟩

/-- `next` is treated as a cavity member: its element's in-circle test against
the cavity center succeeds and it is not the disallowed second encroaching
segment (cavity anchored on a segment, `next` a different segment node). -/
def isMember (g : Graph) (c : Cavity) (next : GNode) : Prop :=
  ¬(c.dim = 2 ∧ (g.getData next).dim = 2 ∧ next ≠ c.centerNode) ∧
    (g.getData next).inCircle c.center = true

instance (g : Graph) (c : Cavity) (next : GNode) : Decidable (isMember g c next) := by
  unfold isMember
  infer_instance

/-- A three-element mesh around node 0: node 1 is a member of node 0's
cavity (its circumcircle contains the center), node 2 is not. -/
def gMesh : Graph :=
  { present := [0, 1, 2]
    data :=
      [(0, { pts := [(0, 0), (2, 0), (0, 2)], obtuse := none,
             center := (1, 1), radiusSq := 2, bad := true }),
       (1, { pts := [(2, 0), (0, 2), (2, 2)], obtuse := none,
             center := (1, 1), radiusSq := 0, bad := false }),
       (2, { pts := [(0, 0), (2, 0), (3, -3)], obtuse := none,
             center := (9, 9), radiusSq := 0, bad := false })]
    edges := [(0, 1), (0, 2)]
    nextId := 3 }

/-- The cavity state embedded in a call. -/
def callCavity : BuildCall → Cavity
  | BuildCall.build c => c
  | BuildCall.expandList c _ _ => c
  | BuildCall.expand c _ _ => c

/-- The number of nodes `computePost` synthesizes: two extra when the anchor
element is a segment. -/
def postCount (g : Graph) (c : Cavity) : Nat :=
  (if (g.getData c.centerNode).dim = 2 then 2 else 0) + c.connections.length

/-- A cavity over `gMesh` ready to commit: `pre` is `[0, 1]`, one fresh bad
replacement node `3` with an edge back to the untouched boundary node `2`. -/
def cavC1 : Cavity :=
  { center := (1, 1), centerNode := 0, frontier := [], pre := [0, 1],
    postNodes := [3], postEdges := [⟨3, 2, ((0, 0), (2, 0))⟩],
    connections := [boundaryTuple gMesh 0 2], dim := 3 }

/-- The mesh `gMesh` with the payload of the replacement node `3` created
(marked still bad) so that `update` can look it up. -/
def gMeshPost : Graph :=
  { gMesh with
    nextId := 4
    data := gMesh.data ++
      [(3, { pts := [(1, 1), (0, 0), (2, 0)], obtuse := none,
             center := (1, 1), radiusSq := 1, bad := true })] }

/-- Every edge of the graph references only already-created node identities. -/
def edgesBounded (g : Graph) : Prop :=
  ∀ e ∈ g.edges, e.1 < g.nextId ∧ e.2 < g.nextId

instance (g : Graph) : Decidable (edgesBounded g) := by
  unfold edgesBounded
  infer_instance

/-- The state invariant of a growing cavity: `pre` is a duplicate-free set of
already-created nodes; `frontier` is a duplicate-free subset of `pre`; the
only possible segment node in `pre` is the anchor; `post` is still empty. -/
def CavInv (g : Graph) (c : Cavity) : Prop :=
  (∀ n ∈ c.pre, n < g.nextId) ∧
  c.pre.Nodup ∧
  (∀ n ∈ c.frontier, n ∈ c.pre) ∧
  c.frontier.Nodup ∧
  (∀ n ∈ c.pre, (g.getData n).dim = 2 → n = c.centerNode) ∧
  c.postNodes = []

instance (g : Graph) (c : Cavity) : Decidable (CavInv g c) := by
  unfold CavInv
  infer_instance

/-- Node arguments fed into a call are already-created identities. -/
def callOK (g : Graph) : BuildCall → Prop
  | BuildCall.build _ => True
  | BuildCall.expandList _ _ nbrs => ∀ x ∈ nbrs, x < g.nextId
  | BuildCall.expand _ _ next => next < g.nextId

/-- The cavity `build` produces from `initialize(0)` on `gMesh`. -/
def cavBuilt : Cavity :=
  { center := (1, 1), centerNode := 0, frontier := [], pre := [0, 1],
    postNodes := [], postEdges := [],
    connections := [⟨0, 2, ((0, 0), (2, 0))⟩], dim := 3 }

/-- A one-segment mesh: node 0 carries a lone boundary segment. -/
def gSeg : Graph :=
  { present := [0]
    data := [(0, { pts := [(0, 0), (2, 0)], obtuse := none,
                   center := (1, 0), radiusSq := 1, bad := true })]
    edges := []
    nextId := 1 }

/-- Modelled from the spec: segment elements are never obtuse (the assumption
of the termination claim). -/
def noObtuseSegs (g : Graph) : Prop :=
  ∀ p ∈ g.data, p.2.dim = 2 → p.2.isObtuse = false

instance (g : Graph) : Decidable (noObtuseSegs g) := by
  unfold noObtuseSegs
  infer_instance

/-- 0 once the cavity is anchored on a segment (no further re-anchoring is
possible), 1 otherwise. -/
def flagC (c : Cavity) : Nat := if c.dim = 2 then 0 else 1

/-- The drain potential of one anchoring: nodes still addable to `pre`
count twice, queued frontier entries once. -/
def phiC (g : Graph) (c : Cavity) : Nat :=
  2 * (g.nextId - c.pre.length) + c.frontier.length

/-- The termination measure of `build`: re-anchoring dominates the potential
of any single anchoring. -/
def valC (g : Graph) (c : Cavity) : Nat :=
  flagC c * (3 * g.nextId + 1) + phiC g c

/-- The cavity after `expand` admits a new member node. -/
def addMember (c : Cavity) (next : GNode) : Cavity :=
  { c with pre := c.pre ++ [next], frontier := c.frontier ++ [next] }

/-- The cavity after `expand` records a new boundary tuple. -/
def addConn (c : Cavity) (et : EdgeTuple) : Cavity :=
  { c with connections := c.connections ++ [et] }

/-- When the loop condition fails, the chase stops immediately. -/
theorem chase_stop (g : Graph) (fuel : Nat) (n : GNode)
    (h : (g.containsNode n && (g.getData n).isObtuse) = false) :
    chase g fuel n = Res.ok n := by
  rw [chase.eq_def, h]
  simp

/-- When the loop condition holds, the chase steps through `getOpposite`. -/
theorem chase_step (g : Graph) (fuel : Nat) (n : GNode)
    (h : (g.containsNode n && (g.getData n).isObtuse) = true) :
    chase g (fuel + 1) n =
      match getOpposite g n with
      | Res.ok m => chase g fuel m
      | Res.fatal e => Res.fatal e := by
  rw [chase.eq_def, h]
  simp

/-- A successful chase ends at a node at which the loop condition fails:
the node is no longer contained or its element is not obtuse. -/
theorem chase_terminal (g : Graph) :
    ∀ (fuel : Nat) (n term : GNode), chase g fuel n = Res.ok term →
      ¬(g.containsNode term = true ∧ (g.getData term).isObtuse = true) := by
  intro fuel
  induction fuel with
  | zero =>
    intro n term h
    by_cases hc : (g.containsNode n && (g.getData n).isObtuse) = true
    · rw [chase, hc] at h
      simp at h
    · rw [chase_stop g 0 n (by simpa using hc)] at h
      cases h
      intro hcon
      exact hc (by simp [hcon.1, hcon.2])
  | succ fuel ih =>
    intro n term h
    by_cases hc : (g.containsNode n && (g.getData n).isObtuse) = true
    · rw [chase_step g fuel n hc] at h
      cases hg : getOpposite g n with
      | ok m => rw [hg] at h; exact ih m term h
      | fatal e => rw [hg] at h; cases h
    · rw [chase_stop g (fuel + 1) n (by simpa using hc)] at h
      cases h
      intro hcon
      exact hc (by simp [hcon.1, hcon.2])

/-- `initialize` does not depend on the incoming cavity state: every field is
reset. -/
theorem initCavity_congr (g : Graph) (fuel : Nat) (c₁ c₂ : Cavity) (node : GNode) :
    initCavity g fuel c₁ node = initCavity g fuel c₂ node := by
  unfold initCavity
  cases chase g fuel node <;> rfl

/-- On a successful chase, `initialize` produces exactly the seeded cavity. -/
theorem initCavity_eq_seeded (g : Graph) (fuel : Nat) (c : Cavity) (node term : GNode)
    (h : chase g fuel node = Res.ok term) :
    initCavity g fuel c node = Res.ok (seededCavity g term) := by
  unfold initCavity
  rw [h]
  rfl

/-- C3: for every node whose chain of obtuse-opposite jumps reaches an element
that is not obtuse or a node no longer contained in the graph (a successful
`chase`), `initialize(node)` leaves `center` equal to the terminal element's
circumcenter, `dim` equal to that element's `dim()`, `pre` containing exactly
the terminal node, `frontier` equal to the one-element stack holding the
terminal node, and `post` and `connections` empty. -/
theorem initCavity_spec (g : Graph) (fuel : Nat) (c : Cavity) (node term : GNode)
    (h : chase g fuel node = Res.ok term) :
    ¬(g.containsNode term = true ∧ (g.getData term).isObtuse = true) ∧
    initCavity g fuel c node = Res.ok
      { center := (g.getData term).getCenter
        centerNode := term
        frontier := [term]
        pre := [term]
        postNodes := []
        postEdges := []
        connections := []
        dim := (g.getData term).dim } := by
  exact ⟨chase_terminal g fuel node term h, initCavity_eq_seeded g fuel c node term h⟩

/-- Witness for C3 at a concrete graph: the chase from node 0 stops at node 0
and `initialize` seeds the cavity with it. -/
theorem initCavity_spec_witness :
    ¬(gOne.containsNode 0 = true ∧ (gOne.getData 0).isObtuse = true) ∧
    initCavity gOne 5 emptyCavity 0 = Res.ok
      { center := (gOne.getData 0).getCenter
        centerNode := 0
        frontier := [0]
        pre := [0]
        postNodes := []
        postEdges := []
        connections := []
        dim := (gOne.getData 0).dim } :=
  initCavity_spec gOne 5 emptyCavity 0 0 (by decide)

/-- C8: calling `initialize(node)` twice in a row on the same cavity with the
same starting node and an unmodified graph yields the same state as calling it
once: the second call, run on the state the first call produced, returns that
very state (in particular the same `center`, `dim`, seed `frontier` and
`pre`). -/
theorem initCavity_idempotent (g : Graph) (fuel : Nat) (c c' : Cavity) (node : GNode)
    (h : initCavity g fuel c node = Res.ok c') :
    initCavity g fuel c' node = Res.ok c' := by
  rw [initCavity_congr g fuel c' c node]
  exact h

/-- Witness for C8 at a concrete graph. -/
theorem initCavity_idempotent_witness :
    initCavity gOne 5 (seededCavity gOne 0) 0 = Res.ok (seededCavity gOne 0) :=
  initCavity_idempotent gOne 5 emptyCavity (seededCavity gOne 0) 0 (by decide)

/-! ### C7: `getOpposite` -/

/-- The loop-body test decides `avoidsObtuse`. -/
theorem avoidsObtuseB_iff (g : Graph) (node nb : GNode) :
    avoidsObtuseB g node nb = true ↔ avoidsObtuse g node nb := by
  simp [avoidsObtuseB, avoidsObtuse]

/-- C7: `getOpposite(node)` returns a neighbor of `node` whose shared edge
with `node` does not contain `node`'s obtuse point; when no neighbor's shared
edge avoids the obtuse point it fails fatally with a diagnostic identifying
the offending node, and the failure propagates through the chase and through
`initialize` — control never returns to the iteration with an `ok` result. -/
theorem getOpposite_spec (g : Graph) (node : GNode) :
    (∀ nb : GNode, getOpposite g node = Res.ok nb →
      nb ∈ g.neighbors node ∧ avoidsObtuse g node nb) ∧
    ((∀ nb ∈ g.neighbors node, ¬avoidsObtuse g node nb) →
      getOpposite g node = Res.fatal (Fatal.die node)) ∧
    (∀ (e : Fatal) (fuel : Nat),
      (g.containsNode node && (g.getData node).isObtuse) = true →
      getOpposite g node = Res.fatal e →
      chase g (fuel + 1) node = Res.fatal e) ∧
    (∀ (e : Fatal) (fuel : Nat) (c : Cavity),
      chase g fuel node = Res.fatal e →
      initCavity g fuel c node = Res.fatal e) := by
  refine ⟨?_, ?_, ?_, ?_⟩
  · intro nb h
    unfold getOpposite at h
    cases hf : (g.neighbors node).find? (avoidsObtuseB g node) with
    | none => rw [hf] at h; cases h
    | some m =>
      rw [hf] at h
      cases h
      constructor
      · exact List.mem_of_find?_eq_some hf
      · exact (avoidsObtuseB_iff g node nb).mp (List.find?_some hf)
  · intro hall
    unfold getOpposite
    have hf : (g.neighbors node).find? (avoidsObtuseB g node) = none := by
      apply List.find?_eq_none.mpr
      intro nb hnb
      intro habs
      exact hall nb hnb ((avoidsObtuseB_iff g node nb).mp habs)
    rw [hf]
  · intro e fuel hc hdie
    rw [chase_step g fuel node hc, hdie]
  · intro e fuel c h
    unfold initCavity
    rw [h]

/-- Witness for C7 at a concrete graph: with no qualifying neighbor the
failure names node 0 and propagates through `chase` and `initialize`. -/
theorem getOpposite_spec_witness :
    getOpposite gStuck 0 = Res.fatal (Fatal.die 0) ∧
    chase gStuck 1 0 = Res.fatal (Fatal.die 0) ∧
    initCavity gStuck 1 emptyCavity 0 = Res.fatal (Fatal.die 0) := by
  refine ⟨?_, ?_, ?_⟩
  · exact (getOpposite_spec gStuck 0).2.1 (by decide)
  · exact (getOpposite_spec gStuck 0).2.2.1 (Fatal.die 0) 0 (by decide)
      ((getOpposite_spec gStuck 0).2.1 (by decide))
  · exact (getOpposite_spec gStuck 0).2.2.2 (Fatal.die 0) 1 emptyCavity
      ((getOpposite_spec gStuck 0).2.2.1 (Fatal.die 0) 0 (by decide)
        ((getOpposite_spec gStuck 0).2.1 (by decide)))

/-! ### Unfolding lemmas for the build/expand interpreter -/

/-- Out of fuel: every call fails with the embedding artifact. -/
theorem run_zero (g : Graph) (call : BuildCall) :
    run g 0 call = Res.fatal Fatal.outOfFuel := rfl

/-- One `build` iteration: pop the back of the frontier and expand the popped
node's neighbors, or stop when the frontier is empty. -/
theorem run_build (g : Graph) (fuel : Nat) (c : Cavity) :
    run g (fuel + 1) (BuildCall.build c) =
      match c.frontier.getLast? with
      | none => Res.ok c
      | some curr =>
        match run g fuel (BuildCall.expandList
            { c with frontier := c.frontier.dropLast } curr (g.neighbors curr)) with
        | Res.fatal e => Res.fatal e
        | Res.ok c2 => run g fuel (BuildCall.build c2) := rfl

/-- A `build` iteration on an empty frontier stops with the cavity. -/
theorem run_build_none (g : Graph) (fuel : Nat) (c : Cavity)
    (hfr : c.frontier.getLast? = none) :
    run g (fuel + 1) (BuildCall.build c) = Res.ok c := by
  rw [run_build, hfr]

/-- A `build` iteration with a nonempty frontier pops its back and expands
the popped node's neighbors before iterating. -/
theorem run_build_some (g : Graph) (fuel : Nat) (c : Cavity) (curr : GNode)
    (hfr : c.frontier.getLast? = some curr) :
    run g (fuel + 1) (BuildCall.build c) =
      match run g fuel (BuildCall.expandList
          { c with frontier := c.frontier.dropLast } curr (g.neighbors curr)) with
      | Res.fatal e => Res.fatal e
      | Res.ok c2 => run g fuel (BuildCall.build c2) := by
  rw [run_build, hfr]

/-- The neighbor loop on an empty list returns the cavity unchanged. -/
theorem run_expandList_nil (g : Graph) (fuel : Nat) (c : Cavity) (node : GNode) :
    run g (fuel + 1) (BuildCall.expandList c node []) = Res.ok c := rfl

/-- The neighbor loop expands the head neighbor and continues on the rest. -/
theorem run_expandList_cons (g : Graph) (fuel : Nat) (c : Cavity)
    (node next : GNode) (rest : List GNode) :
    run g (fuel + 1) (BuildCall.expandList c node (next :: rest)) =
      match run g fuel (BuildCall.expand c node next) with
      | Res.fatal e => Res.fatal e
      | Res.ok c2 => run g fuel (BuildCall.expandList c2 node rest) := rfl

/-- One `expand` step, written out. -/
theorem expand_unfold (g : Graph) (fuel : Nat) (c : Cavity) (node next : GNode) :
    expand g (fuel + 1) c node next =
      if (!(c.dim == 2 && (g.getData next).dim == 2 && next != c.centerNode))
          && (g.getData next).inCircle c.center then
        if (g.getData next).dim == 2 && c.dim != 2 then
          match initCavity g fuel c next with
          | Res.fatal e => Res.fatal e
          | Res.ok c2 => build g fuel c2
        else
          if next ∈ c.pre then Res.ok c
          else Res.ok { c with pre := c.pre ++ [next], frontier := c.frontier ++ [next] }
      else
        if boundaryTuple g node next ∈ c.connections then Res.ok c
        else Res.ok { c with connections := c.connections ++ [boundaryTuple g node next] } := rfl

/-! ### C2: the classification made by `expand` -/

/-- The member guard of `expand`, as a boolean, decides `isMember`. -/
theorem member_guard_iff (g : Graph) (c : Cavity) (next : GNode) :
    ((!(c.dim == 2 && (g.getData next).dim == 2 && next != c.centerNode))
        && (g.getData next).inCircle c.center) = true ↔ isMember g c next := by
  simp only [isMember, Bool.and_eq_true, Bool.not_eq_true', Bool.and_eq_false_iff,
    beq_eq_false_iff_ne, bne_eq_false_iff_eq, beq_iff_eq, bne_iff_ne]
  tauto

/-- The re-anchoring guard of `expand`, as a boolean. -/
theorem reanchor_guard_iff (g : Graph) (c : Cavity) (next : GNode) :
    ((g.getData next).dim == 2 && c.dim != 2) = true ↔
      ((g.getData next).dim = 2 ∧ c.dim ≠ 2) := by
  simp

/-- C2: `expand(node, next)` treats `next` as a cavity member iff `next`'s
element passes the in-circle test against `center` and is not the disallowed
second-encroaching-segment case; a member that is a segment while the cavity
is anchored on a non-segment re-anchors the cavity via `initialize(next)`
followed by `build()`; any other member is added to `pre` and `frontier`
only if `pre` does not already contain it; a non-member leaves `pre` and
`frontier` (and the anchor) unchanged, only recording a boundary edge. -/
theorem expand_spec (g : Graph) (fuel : Nat) (c : Cavity) (node next : GNode) :
    (isMember g c next → (g.getData next).dim = 2 → c.dim ≠ 2 →
      expand g (fuel + 1) c node next =
        match initCavity g fuel c next with
        | Res.fatal e => Res.fatal e
        | Res.ok c2 => build g fuel c2) ∧
    (isMember g c next → ¬((g.getData next).dim = 2 ∧ c.dim ≠ 2) →
      next ∈ c.pre → expand g (fuel + 1) c node next = Res.ok c) ∧
    (isMember g c next → ¬((g.getData next).dim = 2 ∧ c.dim ≠ 2) →
      next ∉ c.pre → expand g (fuel + 1) c node next =
        Res.ok { c with pre := c.pre ++ [next], frontier := c.frontier ++ [next] }) ∧
    (¬isMember g c next → expand g (fuel + 1) c node next =
        Res.ok (if boundaryTuple g node next ∈ c.connections then c
          else { c with connections := c.connections ++ [boundaryTuple g node next] })) := by
  have hmem := member_guard_iff g c next
  have hre := reanchor_guard_iff g c next
  refine ⟨?_, ?_, ?_, ?_⟩
  · intro hm h2 hnot2
    rw [expand_unfold, if_pos (hmem.mpr hm), if_pos (hre.mpr ⟨h2, hnot2⟩)]
  · intro hm hnr hin
    rw [expand_unfold, if_pos (hmem.mpr hm),
      if_neg (fun hb => hnr (hre.mp hb)), if_pos hin]
  · intro hm hnr hout
    rw [expand_unfold, if_pos (hmem.mpr hm),
      if_neg (fun hb => hnr (hre.mp hb)), if_neg hout]
  · intro hm
    rw [expand_unfold, if_neg (fun hb => hm (hmem.mp hb))]
    split <;> simp_all

/-- Witness for C2 at a concrete mesh: node 1 is a member, is no segment, is
not yet in `pre`, and gets added to `pre` and `frontier`. -/
theorem expand_spec_witness :
    isMember gMesh (seededCavity gMesh 0) 1 ∧
    expand gMesh 1 (seededCavity gMesh 0) 0 1 =
      Res.ok { seededCavity gMesh 0 with
        pre := (seededCavity gMesh 0).pre ++ [1]
        frontier := (seededCavity gMesh 0).frontier ++ [1] } :=
  ⟨by decide,
    (expand_spec gMesh 0 (seededCavity gMesh 0) 0 1).2.2.1
      (by decide) (by decide) (by decide)⟩

/-! ### C9: deduplication of `connections` -/

/-- A successful `initialize` leaves `connections` empty. -/
theorem initCavity_connections (g : Graph) (fuel : Nat) (c c2 : Cavity) (node : GNode)
    (h : initCavity g fuel c node = Res.ok c2) : c2.connections = [] := by
  unfold initCavity at h
  cases hch : chase g fuel node with
  | fatal e => rw [hch] at h; cases h
  | ok term => rw [hch] at h; cases h; rfl

/-- The interpreter never introduces a duplicate into `connections`: if the
incoming cavity's `connections` has no duplicates, neither has the result's. -/
theorem run_connections_nodup (g : Graph) :
    ∀ (fuel : Nat) (call : BuildCall) (c' : Cavity),
      run g fuel call = Res.ok c' → (callCavity call).connections.Nodup →
      c'.connections.Nodup := by
  intro fuel
  induction fuel with
  | zero =>
    intro call c' h _
    rw [run_zero] at h
    cases h
  | succ fuel ih =>
    intro call c' h hnd
    cases call with
    | build c =>
      simp only [callCavity] at hnd
      rw [run_build] at h
      split at h
      · cases h; exact hnd
      · split at h
        · cases h
        · rename_i c2 hel
          exact ih _ _ h (by simpa [callCavity] using ih _ _ hel (by simpa [callCavity]))
    | expandList c node nbrs =>
      simp only [callCavity] at hnd
      cases nbrs with
      | nil => rw [run_expandList_nil] at h; cases h; exact hnd
      | cons next rest =>
        rw [run_expandList_cons] at h
        split at h
        · cases h
        · rename_i c2 hex
          exact ih _ _ h (by simpa [callCavity] using ih _ _ hex (by simpa [callCavity]))
    | expand c node next =>
      simp only [callCavity] at hnd
      rw [show run g (fuel + 1) (BuildCall.expand c node next) =
            expand g (fuel + 1) c node next from rfl, expand_unfold] at h
      split at h
      · split at h
        · split at h
          · cases h
          · rename_i c2 hic
            exact ih _ _ h (by
              simp [callCavity, initCavity_connections g fuel c c2 next hic])
        · split at h
          · cases h; exact hnd
          · cases h; exact hnd
      · split at h
        · cases h; exact hnd
        · rename_i hnotin
          cases h
          simp only [List.nodup_append, List.nodup_singleton, true_and,
            List.disjoint_singleton]
          exact ⟨hnd, hnotin⟩

/-- C9: whenever `expand` classifies `next` as outside the cavity, the
boundary-edge tuple `(node, next, shared edge)` is recorded into
`connections` only if an equal tuple is not already present; consequently
`connections` never contains two equal entries during a `build`. -/
theorem connections_dedup_spec (g : Graph) (fuel : Nat) (c c' : Cavity)
    (node next : GNode) :
    (¬isMember g c next → boundaryTuple g node next ∈ c.connections →
      expand g (fuel + 1) c node next = Res.ok c) ∧
    (¬isMember g c next → boundaryTuple g node next ∉ c.connections →
      expand g (fuel + 1) c node next =
        Res.ok { c with connections := c.connections ++ [boundaryTuple g node next] }) ∧
    (build g fuel c = Res.ok c' → c.connections.Nodup → c'.connections.Nodup) := by
  have hmem := member_guard_iff g c next
  refine ⟨?_, ?_, ?_⟩
  · intro hm hin
    rw [expand_unfold, if_neg (fun hb => hm (hmem.mp hb)), if_pos hin]
  · intro hm hout
    rw [expand_unfold, if_neg (fun hb => hm (hmem.mp hb)), if_neg hout]
  · intro hb hnd
    exact run_connections_nodup g fuel (BuildCall.build c) c' hb hnd

/-- Witness for C9 at a concrete mesh: the boundary tuple for non-member
node 2 is already recorded, so `expand` leaves the cavity unchanged; and a
`build` from a duplicate-free state stays duplicate-free. -/
theorem connections_dedup_spec_witness :
    expand gMesh 1 { seededCavity gMesh 0 with
        connections := [boundaryTuple gMesh 0 2] } 0 2 =
      Res.ok { seededCavity gMesh 0 with
        connections := [boundaryTuple gMesh 0 2] } ∧
    ({ seededCavity gMesh 0 with frontier := [] } : Cavity).connections.Nodup :=
  ⟨(connections_dedup_spec gMesh 0
      { seededCavity gMesh 0 with connections := [boundaryTuple gMesh 0 2] }
      emptyCavity 0 2).1 (by decide) (by decide),
    (connections_dedup_spec gMesh 1 { seededCavity gMesh 0 with frontier := [] }
      { seededCavity gMesh 0 with frontier := [] } 0 0).2.2 (by decide) (by decide)⟩

/-! ### C4: `computePost` produces exactly the required new nodes -/

/-- One `connections` iteration bumps the fresh-id counter by one. -/
theorem postStep_nextId (gc : Graph × Cavity) (t : EdgeTuple) :
    (postStep gc t).1.nextId = gc.1.nextId + 1 := rfl

/-- One `connections` iteration appends exactly the freshly created node. -/
theorem postStep_postNodes (gc : Graph × Cavity) (t : EdgeTuple) :
    (postStep gc t).2.postNodes = gc.2.postNodes ++ [gc.1.nextId] := rfl

/-- The `connections` fold of `computePost` creates one fresh node per
connection and appends them all, in creation order, to `post`. -/
theorem postFold_spec :
    ∀ (conns : List EdgeTuple) (g : Graph) (c : Cavity),
      (conns.foldl postStep (g, c)).1.nextId = g.nextId + conns.length ∧
      (conns.foldl postStep (g, c)).2.postNodes =
        c.postNodes ++ (List.range conns.length).map (fun i => g.nextId + i) := by
  intro conns
  induction conns with
  | nil => intro g c; simp
  | cons t ts ih =>
    intro g c
    have hstep : (t :: ts).foldl postStep (g, c) =
        ts.foldl postStep ((postStep (g, c) t).1, (postStep (g, c) t).2) := rfl
    obtain ⟨ih1, ih2⟩ := ih (postStep (g, c) t).1 (postStep (g, c) t).2
    rw [hstep]
    constructor
    · rw [ih1, postStep_nextId]
      show g.nextId + 1 + ts.length = g.nextId + (t :: ts).length
      simp only [List.length_cons]
      ring
    · rw [ih2, postStep_postNodes, postStep_nextId]
      have hfun : ((fun i => g.nextId + i) ∘ Nat.succ) = fun i => g.nextId + 1 + i :=
        funext fun i => by
          show g.nextId + Nat.succ i = g.nextId + 1 + i
          simp only [Nat.succ_eq_add_one]
          ring
      show c.postNodes ++ [g.nextId] ++
          (List.range ts.length).map (fun i => g.nextId + 1 + i) =
        c.postNodes ++ (List.range (t :: ts).length).map (fun i => g.nextId + i)
      simp only [List.length_cons, List.range_succ_eq_map, List.map_cons,
        List.map_map, hfun, Nat.add_zero, List.append_assoc, List.cons_append,
        List.nil_append]

/-- What `computePost` does to the id counter and to `post`: it creates
`postCount` fresh identities and appends exactly them to `post`. -/
theorem computePost_nodes_eq (g : Graph) (c : Cavity) :
    (computePost g c).1.nextId = g.nextId + postCount g c ∧
    (computePost g c).2.postNodes =
      c.postNodes ++ (List.range (postCount g c)).map (fun i => g.nextId + i) ∧
    (computePost g c).2.postNodes.length = c.postNodes.length + postCount g c := by
  have hfold := postFold_spec c.connections (postStart g c).1 (postStart g c).2
  have hcomp : computePost g c =
      c.connections.foldl postStep ((postStart g c).1, (postStart g c).2) := by
    unfold computePost
    rfl
  have hmain : (computePost g c).1.nextId = g.nextId + postCount g c ∧
      (computePost g c).2.postNodes =
        c.postNodes ++ (List.range (postCount g c)).map (fun i => g.nextId + i) := by
    rw [hcomp]
    unfold postCount
    by_cases hdim : (g.getData c.centerNode).dim = 2
    · have hstart1 : (postStart g c).1.nextId = g.nextId + 2 := by
        simp [postStart, hdim, Graph.createNode]
      have hstart2 : (postStart g c).2.postNodes =
          c.postNodes ++ [g.nextId, g.nextId + 1] := by
        simp [postStart, hdim, Graph.createNode]
      rw [if_pos hdim]
      refine ⟨?_, ?_⟩
      · rw [hfold.1, hstart1]; ring
      · rw [hfold.2, hstart2, hstart1]
        have hfun2 : (fun i => g.nextId + (2 + i)) = fun i => g.nextId + 2 + i :=
          funext fun i => (Nat.add_assoc g.nextId 2 i).symm
        have hsplit : (List.range (2 + c.connections.length)).map
              (fun i => g.nextId + i) =
            [g.nextId + 0, g.nextId + 1] ++
              (List.range c.connections.length).map (fun i => g.nextId + 2 + i) := by
          rw [List.range_add, List.map_append, List.map_map]
          rw [show ((fun i => g.nextId + i) ∘ fun i => 2 + i) =
            fun i => g.nextId + (2 + i) from rfl, hfun2]
          rfl
        rw [hsplit]
        simp [List.append_assoc]
    · have hstart : postStart g c = (g, c) := by
        simp [postStart, hdim]
      rw [if_neg hdim, hstart]
      show (c.connections.foldl postStep (g, c)).1.nextId =
            g.nextId + (0 + c.connections.length) ∧
          (c.connections.foldl postStep (g, c)).2.postNodes =
            c.postNodes ++ (List.range (0 + c.connections.length)).map
              (fun i => g.nextId + i)
      rw [Nat.zero_add]
      exact postFold_spec c.connections g c
  refine ⟨hmain.1, hmain.2, ?_⟩
  rw [hmain.2]
  simp

/-- C4: `computePost()` synthesizes exactly `|connections|` new nodes when the
cavity is anchored on a non-segment, and `|connections| + 2` (the two
elements splitting the segment around the center) when the anchor element's
`dim()` is 2; every synthesized node (they are exactly the freshly created
identities) is appended to `post`. -/
theorem computePost_spec (g : Graph) (c : Cavity) :
    (computePost g c).1.nextId = g.nextId + postCount g c ∧
    (computePost g c).2.postNodes =
      c.postNodes ++ (List.range (postCount g c)).map (fun i => g.nextId + i) ∧
    (computePost g c).2.postNodes.length = c.postNodes.length + postCount g c :=
  computePost_nodes_eq g c

/-! ### C1: `update` commits exactly the pre/post delta -/

/-- The removal loop of `update`: the surviving nodes are those outside
`pre`, the surviving edges are those with both endpoints outside `pre`
(no dangling edges), and payloads and the id counter are untouched. -/
theorem removeFold_spec :
    ∀ (pre : List GNode) (g : Graph),
      (pre.foldl Graph.removeNode g).present =
        g.present.filter (fun n => decide (n ∉ pre)) ∧
      (pre.foldl Graph.removeNode g).edges =
        g.edges.filter (fun e => decide (e.1 ∉ pre ∧ e.2 ∉ pre)) ∧
      (pre.foldl Graph.removeNode g).data = g.data ∧
      (pre.foldl Graph.removeNode g).nextId = g.nextId := by
  intro pre
  induction pre with
  | nil =>
    intro g
    refine ⟨?_, ?_, rfl, rfl⟩ <;> simp
  | cons p ps ih =>
    intro g
    have hstep : (p :: ps).foldl Graph.removeNode g =
        ps.foldl Graph.removeNode (g.removeNode p) := rfl
    obtain ⟨h1, h2, h3, h4⟩ := ih (g.removeNode p)
    rw [hstep]
    refine ⟨?_, ?_, h3, h4⟩
    · rw [h1]
      show (g.present.filter (fun m => decide (m ≠ p))).filter
          (fun n => decide (n ∉ ps)) = _
      rw [List.filter_filter]
      apply List.filter_congr
      intro a _
      by_cases h1 : a = p <;> by_cases h2 : a ∈ ps <;>
        simp [h1, h2, List.mem_cons]
    · rw [h2]
      show (g.edges.filter (fun e => decide (e.1 ≠ p ∧ e.2 ≠ p))).filter
          (fun e => decide (e.1 ∉ ps ∧ e.2 ∉ ps)) = _
      rw [List.filter_filter]
      apply List.filter_congr
      intro e _
      by_cases ha : e.1 = p <;> by_cases hb : e.2 = p <;>
        by_cases hc : e.1 ∈ ps <;> by_cases hd : e.2 ∈ ps <;>
        simp [ha, hb, hc, hd, List.mem_cons]

/-- The insertion loop of `update`: every post node is appended to the
present set, edges/payloads/counter are untouched, and the context receives
exactly the post nodes whose payloads are still bad, in order. -/
theorem addFold_spec :
    ∀ (ns : List GNode) (g : Graph) (ctx : List GNode),
      (ns.foldl addStep (g, ctx)).1.present = g.present ++ ns ∧
      (ns.foldl addStep (g, ctx)).1.edges = g.edges ∧
      (ns.foldl addStep (g, ctx)).1.data = g.data ∧
      (ns.foldl addStep (g, ctx)).1.nextId = g.nextId ∧
      (ns.foldl addStep (g, ctx)).2 =
        ctx ++ ns.filter (fun n => (g.getData n).isBad) := by
  intro ns
  induction ns with
  | nil => intro g ctx; simp
  | cons n ns ih =>
    intro g ctx
    have hgd : (g.addNode n).getData = g.getData := rfl
    have hstep : ((n :: ns).foldl addStep (g, ctx)) =
        ns.foldl addStep
          (g.addNode n, if (g.getData n).isBad then ctx ++ [n] else ctx) := rfl
    rw [hstep]
    obtain ⟨h1, h2, h3, h4, h5⟩ :=
      ih (g.addNode n) (if (g.getData n).isBad then ctx ++ [n] else ctx)
    refine ⟨?_, h2, h3, h4, ?_⟩
    · rw [h1]
      show g.present ++ [n] ++ ns = g.present ++ n :: ns
      simp
    · rw [h5, hgd]
      by_cases hb : (g.getData n).isBad <;>
        simp [List.filter_cons, hb]

/-- The edge-insertion loop of `update`: it appends exactly the recorded
post edges and touches nothing else. -/
theorem edgeFold_spec :
    ∀ (es : List EdgeTuple) (g : Graph),
      (es.foldl (fun h e => h.addEdge e.src e.dst) g).edges =
        g.edges ++ es.map (fun e => (e.src, e.dst)) ∧
      (es.foldl (fun h e => h.addEdge e.src e.dst) g).present = g.present ∧
      (es.foldl (fun h e => h.addEdge e.src e.dst) g).data = g.data ∧
      (es.foldl (fun h e => h.addEdge e.src e.dst) g).nextId = g.nextId := by
  intro es
  induction es with
  | nil => intro g; simp
  | cons e es ih =>
    intro g
    have hstep : ((e :: es).foldl (fun h e => h.addEdge e.src e.dst) g) =
        es.foldl (fun h e => h.addEdge e.src e.dst) (g.addEdge e.src e.dst) := rfl
    rw [hstep]
    obtain ⟨h1, h2, h3, h4⟩ := ih (g.addEdge e.src e.dst)
    refine ⟨?_, h2, h3, h4⟩
    rw [h1]
    show g.edges ++ [(e.src, e.dst)] ++ es.map (fun e => (e.src, e.dst)) = _
    simp

/-- Removing one contained node from a duplicate-free list shortens it by
exactly one. -/
theorem filter_ne_length (p : GNode) :
    ∀ (l : List GNode), l.Nodup → p ∈ l →
      (l.filter (fun n => decide (n ≠ p))).length + 1 = l.length := by
  intro l
  induction l with
  | nil => intro _ h; cases h
  | cons a l ih =>
    intro hnd hmem
    rcases List.mem_cons.mp hmem with h | h
    · subst h
      have hout : p ∉ l := (List.nodup_cons.mp hnd).1
      have hfl : l.filter (fun n => decide (n ≠ p)) = l := by
        apply List.filter_eq_self.mpr
        intro b hb
        simp
        rintro rfl
        exact hout hb
      simp [List.filter_cons, hfl]
      exact fun a ha hap => hout (hap ▸ ha)
    · have ha : a ≠ p := by
        rintro rfl
        exact (List.nodup_cons.mp hnd).1 h
      have ihl := ih (List.nodup_cons.mp hnd).2 h
      simp only [List.filter_cons]
      rw [if_pos (by simpa using ha)]
      simp only [List.length_cons]
      omega

/-- Removing a duplicate-free set of contained nodes from a duplicate-free
list shortens it by exactly the set's size. -/
theorem filter_not_mem_length :
    ∀ (pre present : List GNode), present.Nodup → pre.Nodup →
      (∀ q ∈ pre, q ∈ present) →
      (present.filter (fun n => decide (n ∉ pre))).length + pre.length =
        present.length := by
  intro pre
  induction pre with
  | nil => intro present _ _ _; simp
  | cons p ps ih =>
    intro present hpres hpre hsub
    have hlen := filter_ne_length p present hpres (hsub p (List.mem_cons_self p ps))
    have hnd' : (present.filter (fun n => decide (n ≠ p))).Nodup :=
      hpres.filter _
    have hsub' : ∀ q ∈ ps, q ∈ present.filter (fun n => decide (n ≠ p)) := by
      intro q hq
      apply List.mem_filter.mpr
      refine ⟨hsub q (List.mem_cons_of_mem p hq), ?_⟩
      simp
      rintro rfl
      exact (List.nodup_cons.mp hpre).1 hq
    have key : present.filter (fun n => decide (n ∉ p :: ps)) =
        (present.filter (fun n => decide (n ≠ p))).filter
          (fun n => decide (n ∉ ps)) := by
      rw [List.filter_filter]
      apply List.filter_congr
      intro a _
      by_cases h1 : a = p <;> by_cases h2 : a ∈ ps <;>
        simp [h1, h2, List.mem_cons]
    have := ih (present.filter (fun n => decide (n ≠ p))) hnd'
      (List.nodup_cons.mp hpre).2 hsub'
    rw [key]
    simp only [List.length_cons]
    omega

/-- C1: `update(node, ctx)` removes exactly the nodes of `pre`, adds exactly
the nodes of `post`, pushes into the context exactly the post nodes whose
elements satisfy `isBad()` followed by the originating node iff the final
graph still contains it, adds exactly the edges recorded in `post` (all
edges dangling from a removed node are gone), and — when `pre` is a
duplicate-free subset of the duplicate-free present set — leaves the graph
with `|pre|` fewer and `|post|` more nodes than before. -/
theorem update_spec (g : Graph) (c : Cavity) (node : GNode) (ctx : List GNode)
    (hpres : g.present.Nodup) (hpre : c.pre.Nodup)
    (hsub : ∀ q ∈ c.pre, q ∈ g.present) :
    (∀ n, n ∈ (update g c node ctx).1.present ↔
      ((n ∈ g.present ∧ n ∉ c.pre) ∨ n ∈ c.postNodes)) ∧
    (update g c node ctx).1.edges =
      g.edges.filter (fun e => decide (e.1 ∉ c.pre ∧ e.2 ∉ c.pre)) ++
        c.postEdges.map (fun e => (e.src, e.dst)) ∧
    (update g c node ctx).2 =
      ctx ++ c.postNodes.filter (fun n => (g.getData n).isBad) ++
        (if (update g c node ctx).1.containsNode node = true then [node] else []) ∧
    (update g c node ctx).1.present.length + c.pre.length =
      g.present.length + c.postNodes.length := by
  obtain ⟨hr1, hr2, hr3, hr4⟩ := removeFold_spec c.pre g
  obtain ⟨ha1, ha2, ha3, ha4, ha5⟩ :=
    addFold_spec c.postNodes (c.pre.foldl Graph.removeNode g) ctx
  obtain ⟨he1, he2, he3, he4⟩ :=
    edgeFold_spec c.postEdges (c.postNodes.foldl addStep
      (c.pre.foldl Graph.removeNode g, ctx)).1
  have hu1 : (update g c node ctx).1 =
      c.postEdges.foldl (fun h e => h.addEdge e.src e.dst)
        (c.postNodes.foldl addStep (c.pre.foldl Graph.removeNode g, ctx)).1 := rfl
  have hu2 : (update g c node ctx).2 =
      if ((update g c node ctx).1).containsNode node = true then
        (c.postNodes.foldl addStep (c.pre.foldl Graph.removeNode g, ctx)).2 ++ [node]
      else (c.postNodes.foldl addStep (c.pre.foldl Graph.removeNode g, ctx)).2 := rfl
  have hpresent : (update g c node ctx).1.present =
      g.present.filter (fun n => decide (n ∉ c.pre)) ++ c.postNodes := by
    rw [hu1, he2, ha1, hr1]
  have hgd1 : (c.pre.foldl Graph.removeNode g).getData = g.getData := by
    funext n
    unfold Graph.getData
    rw [hr3]
  refine ⟨?_, ?_, ?_, ?_⟩
  · intro n
    rw [hpresent]
    simp [List.mem_filter, List.mem_append]
  · rw [hu1, he1, ha2, hr2]
  · rw [hu2, ha5, hgd1]
    by_cases hc : ((update g c node ctx).1).containsNode node = true <;>
      simp [hc, List.append_assoc]
  · rw [hpresent]
    simp only [List.length_append]
    have := filter_not_mem_length c.pre g.present hpres hpre hsub
    omega

/-- Witness for C1 at a concrete mesh commit. -/
theorem update_spec_witness :
    (3 ∈ (update gMeshPost cavC1 0 []).1.present ↔
      ((3 ∈ gMeshPost.present ∧ 3 ∉ cavC1.pre) ∨ 3 ∈ cavC1.postNodes)) ∧
    (update gMeshPost cavC1 0 []).1.present.length + cavC1.pre.length =
      gMeshPost.present.length + cavC1.postNodes.length :=
  ⟨((update_spec gMeshPost cavC1 0 [] (by decide) (by decide) (by decide)).1 3),
    (update_spec gMeshPost cavC1 0 [] (by decide) (by decide) (by decide)).2.2.2⟩

/-! ### Invariants of the cavity growth loop (C5, C6, C10) -/

/-- Neighbors reached through bounded edges are bounded. -/
theorem neighbors_lt (g : Graph) (hWF : edgesBounded g) (n x : GNode)
    (hx : x ∈ g.neighbors n) : x < g.nextId := by
  unfold Graph.neighbors at hx
  obtain ⟨e, he, hfe⟩ := List.mem_filterMap.mp hx
  by_cases h1 : e.1 = n
  · rw [if_pos h1] at hfe
    cases hfe
    exact (hWF e he).2
  · rw [if_neg h1] at hfe
    by_cases h2 : e.2 = n
    · rw [if_pos h2] at hfe
      cases hfe
      exact (hWF e he).1
    · rw [if_neg h2] at hfe
      cases hfe

/-- A successful `getOpposite` returns one of the node's neighbors. -/
theorem getOpposite_ok_mem (g : Graph) (node nb : GNode)
    (h : getOpposite g node = Res.ok nb) : nb ∈ g.neighbors node := by
  unfold getOpposite at h
  cases hf : (g.neighbors node).find? (avoidsObtuseB g node) with
  | none => rw [hf] at h; cases h
  | some m =>
    rw [hf] at h
    cases h
    exact List.mem_of_find?_eq_some hf

/-- The obtuse chase stays within the already-created identities. -/
theorem chase_lt (g : Graph) (hWF : edgesBounded g) :
    ∀ (fuel : Nat) (n t : GNode), n < g.nextId → chase g fuel n = Res.ok t →
      t < g.nextId := by
  intro fuel
  induction fuel with
  | zero =>
    intro n t hn h
    by_cases hc : (g.containsNode n && (g.getData n).isObtuse) = true
    · rw [chase.eq_def, hc] at h
      simp at h
    · rw [chase_stop g 0 n (by simpa using hc)] at h
      cases h
      exact hn
  | succ fuel ih =>
    intro n t hn h
    by_cases hc : (g.containsNode n && (g.getData n).isObtuse) = true
    · rw [chase_step g fuel n hc] at h
      cases ho : getOpposite g n with
      | fatal e => rw [ho] at h; cases h
      | ok m =>
        rw [ho] at h
        exact ih m t (neighbors_lt g hWF n m (getOpposite_ok_mem g n m ho)) h
    · rw [chase_stop g (fuel + 1) n (by simpa using hc)] at h
      cases h
      exact hn

/-- A successful `initialize` from an already-created node establishes the
cavity invariant. -/
theorem initCavity_inv (g : Graph) (hWF : edgesBounded g)
    (fuel : Nat) (c c2 : Cavity) (node : GNode) (hn : node < g.nextId)
    (h : initCavity g fuel c node = Res.ok c2) : CavInv g c2 := by
  unfold initCavity at h
  cases hch : chase g fuel node with
  | fatal e => rw [hch] at h; cases h
  | ok term =>
    rw [hch] at h
    cases h
    have hterm : term < g.nextId := chase_lt g hWF fuel node term hn hch
    refine ⟨?_, ?_, ?_, ?_, ?_, rfl⟩
    · intro n hn2
      rcases List.mem_singleton.mp hn2 with rfl
      exact hterm
    · exact List.nodup_singleton term
    · intro n hn2
      exact hn2
    · exact List.nodup_singleton term
    · intro n hn2 _
      exact List.mem_singleton.mp hn2

/-- The interpreter preserves the cavity invariant. -/
theorem run_inv (g : Graph) (hWF : edgesBounded g) :
    ∀ (fuel : Nat) (call : BuildCall) (c' : Cavity),
      run g fuel call = Res.ok c' → CavInv g (callCavity call) → callOK g call →
      CavInv g c' := by
  intro fuel
  induction fuel with
  | zero =>
    intro call c' h _ _
    rw [run_zero] at h
    cases h
  | succ fuel ih =>
    intro call c' h hinv hok
    cases call with
    | build c =>
      simp only [callCavity] at hinv
      rw [run_build] at h
      split at h
      · cases h; exact hinv
      · rename_i curr hfr
        split at h
        · cases h
        · rename_i c2 hel
          obtain ⟨i1, i2, i3, i4, i5, i6⟩ := hinv
          have hinv1 : CavInv g { c with frontier := c.frontier.dropLast } := by
            refine ⟨i1, i2, ?_, ?_, i5, i6⟩
            · intro n hn
              exact i3 n (List.dropLast_subset c.frontier hn)
            · exact i4.sublist (List.dropLast_sublist c.frontier)
          have hok1 : callOK g (BuildCall.expandList
              { c with frontier := c.frontier.dropLast } curr (g.neighbors curr)) :=
            fun x hx => neighbors_lt g hWF curr x hx
          exact ih _ _ h (by simpa [callCavity] using ih _ _ hel hinv1 hok1) trivial
    | expandList c node nbrs =>
      simp only [callCavity] at hinv
      cases nbrs with
      | nil => rw [run_expandList_nil] at h; cases h; exact hinv
      | cons next rest =>
        rw [run_expandList_cons] at h
        split at h
        · cases h
        · rename_i c2 hex
          have hok1 : callOK g (BuildCall.expand c node next) :=
            hok next (List.mem_cons_self next rest)
          have hok2 : callOK g (BuildCall.expandList c2 node rest) :=
            fun x hx => hok x (List.mem_cons_of_mem next hx)
          exact ih _ _ h (by simpa [callCavity] using ih _ _ hex hinv hok1) hok2
    | expand c node next =>
      simp only [callCavity] at hinv
      rw [show run g (fuel + 1) (BuildCall.expand c node next) =
            expand g (fuel + 1) c node next from rfl, expand_unfold] at h
      split at h
      · rename_i hguard
        split at h
        · rename_i hre
          split at h
          · cases h
          · rename_i c2 hic
            exact ih _ _ h
              (by simpa [callCavity] using
                initCavity_inv g hWF fuel c c2 next hok hic) trivial
        · rename_i hre
          split at h
          · cases h; exact hinv
          · rename_i hout
            cases h
            obtain ⟨i1, i2, i3, i4, i5, i6⟩ := hinv
            have hnext2 : (g.getData next).dim = 2 → next = c.centerNode := by
              intro hd2
              have hcd : c.dim = 2 := by
                rcases reanchor_guard_iff g c next |>.not.mp
                  (by simpa using hre) |> not_and_or.mp with h | h
                · exact absurd hd2 h
                · exact not_not.mp h
              rcases (member_guard_iff g c next).mp hguard with ⟨hng, _⟩
              by_contra hne
              exact hng ⟨hcd, hd2, hne⟩
            refine ⟨?_, ?_, ?_, ?_, ?_, i6⟩
            · intro n hn
              rcases List.mem_append.mp hn with hn | hn
              · exact i1 n hn
              · rcases List.mem_singleton.mp hn with rfl
                exact hok
            · simp only [List.nodup_append, List.nodup_singleton,
                List.disjoint_singleton, true_and]
              exact ⟨i2, hout⟩
            · intro n hn
              rcases List.mem_append.mp hn with hn | hn
              · exact List.mem_append.mpr (Or.inl (i3 n hn))
              · exact List.mem_append.mpr (Or.inr hn)
            · simp only [List.nodup_append, List.nodup_singleton,
                List.disjoint_singleton, true_and]
              exact ⟨i4, fun hmem => hout (i3 next hmem)⟩
            · intro n hn hd2
              rcases List.mem_append.mp hn with hn | hn
              · exact i5 n hn hd2
              · rcases List.mem_singleton.mp hn with rfl
                exact hnext2 hd2
      · split at h
        · cases h; exact hinv
        · cases h
          exact hinv

/-- C5: within a cavity grown by `initialize` + `build`, the only node whose
element is a segment (`dim() == 2`) that can be in `pre` — and hence be
removed by `update`, which removes exactly `pre` — is the cavity's own
`centerNode`: `expand` either re-anchors on an encroaching segment (making it
the anchor) or the second-encroaching-segment guard keeps the segment out. -/
theorem segment_pre_spec (g : Graph) (fuel0 fuel1 : Nat) (c0 c1 c2 : Cavity)
    (node : GNode) (hWF : edgesBounded g) (hnode : node < g.nextId)
    (h1 : initCavity g fuel0 c0 node = Res.ok c1)
    (h2 : build g fuel1 c1 = Res.ok c2) :
    ∀ n ∈ c2.pre, (g.getData n).dim = 2 → n = c2.centerNode := by
  have hinv1 := initCavity_inv g hWF fuel0 c0 c1 node hnode h1
  have hinv2 := run_inv g hWF fuel1 (BuildCall.build c1) c2 h2
    (by simpa [callCavity] using hinv1) trivial
  exact hinv2.2.2.2.2.1

/-- Witness for C5 at a concrete mesh: the segment node 0 sits in `pre` of
the built cavity and is indeed its anchor. -/
theorem segment_pre_spec_witness :
    (0 : GNode) = ({ seededCavity gSeg 0 with frontier := [] } : Cavity).centerNode :=
  segment_pre_spec gSeg 5 5 emptyCavity (seededCavity gSeg 0)
    { seededCavity gSeg 0 with frontier := [] } 0
    (by decide) (by decide) (by decide) (by decide) 0 (by decide) (by decide)

/-! ### C6: `pre` and `post` are disjoint -/

/-- The `connections` fold of `computePost` never touches `pre`. -/
theorem postFold_pre :
    ∀ (conns : List EdgeTuple) (g : Graph) (c : Cavity),
      (conns.foldl postStep (g, c)).2.pre = c.pre := by
  intro conns
  induction conns with
  | nil => intro g c; rfl
  | cons t ts ih =>
    intro g c
    have hstep : ((t :: ts).foldl postStep (g, c)) =
        ts.foldl postStep ((postStep (g, c) t).1, (postStep (g, c) t).2) := rfl
    rw [hstep, ih]
    rfl

/-- `computePost` never touches `pre`. -/
theorem computePost_pre (g : Graph) (c : Cavity) :
    (computePost g c).2.pre = c.pre := by
  have h : computePost g c =
      c.connections.foldl postStep ((postStart g c).1, (postStart g c).2) := rfl
  rw [h, postFold_pre]
  unfold postStart
  split <;> rfl

/-- C6: within one cavity run (`initialize`, `build`, `computePost`), `pre`
and `post` are disjoint node sets: `pre` only ever receives nodes reached by
traversing the pre-existing graph (identities below the creation counter),
while `post` only ever receives nodes freshly produced by `createNode`,
which always succeeds and assigns the next fresh identity. -/
theorem pre_post_disjoint_spec (g : Graph) (fuel0 fuel1 : Nat)
    (c0 c1 c2 : Cavity) (node : GNode) (hWF : edgesBounded g)
    (hnode : node < g.nextId)
    (h1 : initCavity g fuel0 c0 node = Res.ok c1)
    (h2 : build g fuel1 c1 = Res.ok c2) :
    (∀ n ∈ (computePost g c2).2.pre, n ∉ (computePost g c2).2.postNodes) ∧
    (∀ e : Element, (g.createNode e).1 = g.nextId ∧
      (g.createNode e).2.nextId = g.nextId + 1) := by
  have hinv1 := initCavity_inv g hWF fuel0 c0 c1 node hnode h1
  have hinv2 := run_inv g hWF fuel1 (BuildCall.build c1) c2 h2
    (by simpa [callCavity] using hinv1) trivial
  constructor
  · intro n hn hmem
    rw [computePost_pre] at hn
    have hlt : n < g.nextId := hinv2.1 n hn
    have hnodes := (computePost_nodes_eq g c2).2.1
    rw [hinv2.2.2.2.2.2] at hnodes
    rw [hnodes] at hmem
    simp only [List.nil_append, List.mem_map, List.mem_range] at hmem
    obtain ⟨i, _, hi⟩ := hmem
    have hge : g.nextId ≤ n := hi ▸ Nat.le_add_right g.nextId i
    exact Nat.not_lt.mpr hge hlt
  · intro e
    exact ⟨rfl, rfl⟩

/-- Witness for C6 at a concrete mesh: pre node 0 is not among the
synthesized post nodes, and `createNode` hands out the fresh identity. -/
theorem pre_post_disjoint_spec_witness :
    (0 : GNode) ∉ (computePost gMesh cavBuilt).2.postNodes ∧
    (gMesh.createNode default).1 = gMesh.nextId :=
  ⟨(pre_post_disjoint_spec gMesh 5 10 emptyCavity (seededCavity gMesh 0) cavBuilt 0
      (by decide) (by decide) (by decide) (by decide)).1 0 (by decide),
    ((pre_post_disjoint_spec gMesh 5 10 emptyCavity (seededCavity gMesh 0) cavBuilt 0
      (by decide) (by decide) (by decide) (by decide)).2 default).1⟩

/-! ### C10: termination of `build` -/

/-- More fuel never changes a successful chase. -/
theorem chase_mono (g : Graph) :
    ∀ (fuel : Nat) (n t : GNode), chase g fuel n = Res.ok t →
      chase g (fuel + 1) n = Res.ok t := by
  intro fuel
  induction fuel with
  | zero =>
    intro n t h
    by_cases hc : (g.containsNode n && (g.getData n).isObtuse) = true
    · rw [chase.eq_def, hc] at h
      simp at h
    · rw [chase_stop g 0 n (by simpa using hc)] at h
      cases h
      exact chase_stop g 1 n (by simpa using hc)
  | succ fuel ih =>
    intro n t h
    by_cases hc : (g.containsNode n && (g.getData n).isObtuse) = true
    · rw [chase_step g fuel n hc] at h
      rw [chase_step g (fuel + 1) n hc]
      cases ho : getOpposite g n with
      | fatal e => rw [ho] at h; cases h
      | ok m =>
        rw [ho] at h
        exact ih m t h
    · rw [chase_stop g (fuel + 1) n (by simpa using hc)] at h
      cases h
      exact chase_stop g (fuel + 2) n (by simpa using hc)

/-- More fuel never changes a successful `initialize`. -/
theorem initCavity_mono (g : Graph) (fuel : Nat) (c c2 : Cavity) (node : GNode)
    (h : initCavity g fuel c node = Res.ok c2) :
    initCavity g (fuel + 1) c node = Res.ok c2 := by
  unfold initCavity at h ⊢
  cases hch : chase g fuel node with
  | fatal e => rw [hch] at h; cases h
  | ok term =>
    rw [hch] at h
    rw [chase_mono g fuel node term hch]
    exact h

/-- More fuel never changes a successful interpreter call. -/
theorem run_mono (g : Graph) :
    ∀ (fuel : Nat) (call : BuildCall) (c' : Cavity),
      run g fuel call = Res.ok c' → run g (fuel + 1) call = Res.ok c' := by
  intro fuel
  induction fuel with
  | zero =>
    intro call c' h
    rw [run_zero] at h
    cases h
  | succ fuel ih =>
    intro call c' h
    cases call with
    | build c =>
      cases hfr : c.frontier.getLast? with
      | none =>
        rw [run_build_none g fuel c hfr] at h
        rw [run_build_none g (fuel + 1) c hfr]
        exact h
      | some curr =>
        cases hel : run g fuel (BuildCall.expandList
            { c with frontier := c.frontier.dropLast } curr (g.neighbors curr)) with
        | fatal e =>
          rw [run_build_some g fuel c curr hfr, hel] at h
          cases h
        | ok c2 =>
          rw [run_build_some g fuel c curr hfr, hel] at h
          rw [run_build_some g (fuel + 1) c curr hfr, ih _ _ hel]
          exact ih (BuildCall.build c2) c' h
    | expandList c node nbrs =>
      cases nbrs with
      | nil => rw [run_expandList_nil] at h; rw [run_expandList_nil]; exact h
      | cons next rest =>
        cases hex : run g fuel (BuildCall.expand c node next) with
        | fatal e =>
          rw [run_expandList_cons, hex] at h
          cases h
        | ok c2 =>
          rw [run_expandList_cons, hex] at h
          rw [run_expandList_cons, ih _ _ hex]
          exact ih (BuildCall.expandList c2 node rest) c' h
    | expand c node next =>
      rw [show run g (fuel + 1) (BuildCall.expand c node next) =
            expand g (fuel + 1) c node next from rfl, expand_unfold] at h
      rw [show run g (fuel + 1 + 1) (BuildCall.expand c node next) =
            expand g (fuel + 1 + 1) c node next from rfl, expand_unfold]
      split at h
      · rename_i hguard
        rw [if_pos hguard]
        split at h
        · rename_i hre
          rw [if_pos hre]
          split at h
          · cases h
          · rename_i c2 hic
            rw [initCavity_mono g fuel c c2 next hic]
            exact ih _ _ h
        · rename_i hre
          rw [if_neg hre]
          split at h
          · rename_i hin
            rw [if_pos hin]
            exact h
          · rename_i hin
            rw [if_neg hin]
            exact h
      · rename_i hguard
        rw [if_neg hguard]
        split at h
        · rename_i hin
          rw [if_pos hin]
          exact h
        · rename_i hin
          rw [if_neg hin]
          exact h

/-- Fuel monotonicity, ≤ version. -/
theorem run_mono_le (g : Graph) :
    ∀ (fuel fuel' : Nat) (call : BuildCall) (c' : Cavity), fuel ≤ fuel' →
      run g fuel call = Res.ok c' → run g fuel' call = Res.ok c' := by
  intro fuel fuel'
  induction fuel' with
  | zero =>
    intro call c' hle h
    rw [Nat.le_zero.mp hle] at h
    exact h
  | succ f ih =>
    intro call c' hle h
    rcases Nat.lt_or_ge fuel (f + 1) with hlt | hge
    · exact run_mono g f call c' (ih call c' (Nat.lt_succ_iff.mp hlt) h)
    · rw [Nat.le_antisymm hle hge] at h
      exact h

/-- Under `noObtuseSegs`, every payload of segment dimension is non-obtuse. -/
theorem noObtuseSegs_getData (g : Graph) (h : noObtuseSegs g) (n : GNode)
    (hd : (g.getData n).dim = 2) : (g.getData n).isObtuse = false := by
  unfold Graph.getData at hd ⊢
  cases hf : g.data.find? (fun p => p.1 == n) with
  | none =>
    rw [hf] at hd
    exact absurd hd (by decide)
  | some p =>
    rw [hf] at hd
    exact h p (List.mem_of_find?_eq_some hf) hd

/-- The chase from a segment node stops immediately. -/
theorem chase_seg (g : Graph) (hNOS : noObtuseSegs g) (fuel : Nat) (n : GNode)
    (hd : (g.getData n).dim = 2) : chase g fuel n = Res.ok n := by
  apply chase_stop
  rw [noObtuseSegs_getData g hNOS n hd]
  simp

/-- `initialize` on a segment node anchors the cavity on that very segment. -/
theorem initCavity_seg (g : Graph) (hNOS : noObtuseSegs g) (fuel : Nat)
    (c : Cavity) (n : GNode) (hd : (g.getData n).dim = 2) :
    initCavity g fuel c n = Res.ok (seededCavity g n) :=
  initCavity_eq_seeded g fuel c n n (chase_seg g hNOS fuel n hd)

/-- A duplicate-free list of identities below `N` has at most `N` entries. -/
theorem nodup_bounded_length (l : List Nat) (N : Nat) (hnd : l.Nodup)
    (hb : ∀ x ∈ l, x < N) : l.length ≤ N := by
  have h1 : l.toFinset.card = l.length := List.toFinset_card_of_nodup hnd
  have h2 : l.toFinset ⊆ Finset.range N := by
    intro x hx
    exact Finset.mem_range.mpr (hb x (List.mem_toFinset.mp hx))
  have := Finset.card_le_card h2
  rw [h1, Finset.card_range] at this
  exact this

/-- A duplicate-free sublist is no longer than its superset list. -/
theorem nodup_subset_length (l₁ l₂ : List Nat) (hnd : l₁.Nodup)
    (hsub : ∀ x ∈ l₁, x ∈ l₂) : l₁.length ≤ l₂.length := by
  have h1 : l₁.toFinset.card = l₁.length := List.toFinset_card_of_nodup hnd
  have h2 : l₁.toFinset ⊆ l₂.toFinset := by
    intro x hx
    exact List.mem_toFinset.mpr (hsub x (List.mem_toFinset.mp hx))
  have h3 := Finset.card_le_card h2
  have h4 := l₂.toFinset_card_le
  omega

/-- Pure-arithmetic step facts about the measure. -/
theorem natPop (W fl N p f : Nat) (hf : 1 ≤ f) :
    fl * W + (2 * (N - p) + (f - 1)) + 1 = fl * W + (2 * (N - p) + f) := by
  omega

theorem natAdd (W fl N p f : Nat) (hp : p + 1 ≤ N) :
    fl * W + (2 * (N - (p + 1)) + (f + 1)) + 1 = fl * W + (2 * (N - p) + f) := by
  omega

theorem natReanchor (N x : Nat) (hN : 1 ≤ N) :
    0 * (3 * N + 1) + (2 * (N - 1) + 1) < 1 * (3 * N + 1) + x := by
  omega

theorem natZero (a b f : Nat) (h : a + (b + f) ≤ 0) : f = 0 := by
  omega

/-- Popping the frontier decreases the measure by one. -/
theorem valC_pop (g : Graph) (c : Cavity) (hf : 1 ≤ c.frontier.length) :
    valC g { c with frontier := c.frontier.dropLast } + 1 = valC g c := by
  unfold valC flagC phiC
  simp only [List.length_dropLast]
  exact natPop (3 * g.nextId + 1) (if c.dim = 2 then 0 else 1) g.nextId
    c.pre.length c.frontier.length hf

/-- Adding a new member to `pre` and `frontier` decreases the measure by
one. -/
theorem valC_add (g : Graph) (c : Cavity) (next : GNode)
    (hp : c.pre.length + 1 ≤ g.nextId) :
    valC g { c with pre := c.pre ++ [next], frontier := c.frontier ++ [next] } + 1 =
      valC g c := by
  unfold valC flagC phiC
  simp only [List.length_append, List.length_singleton]
  exact natAdd (3 * g.nextId + 1) (if c.dim = 2 then 0 else 1) g.nextId
    c.pre.length c.frontier.length hp

/-- Re-anchoring on a segment drops the measure below any non-segment
anchoring. -/
theorem valC_seeded_lt (g : Graph) (c : Cavity) (next : GNode)
    (hn : next < g.nextId) (hd : (g.getData next).dim = 2) (hcd : c.dim ≠ 2) :
    valC g (seededCavity g next) < valC g c := by
  have hN : 1 ≤ g.nextId := by
    rcases Nat.eq_zero_or_pos g.nextId with h0 | h1
    · rw [h0] at hn
      exact absurd hn (Nat.not_lt_zero next)
    · exact h1
  have hflag : flagC (seededCavity g next) = 0 := by
    unfold flagC
    rw [if_pos (show (seededCavity g next).dim = 2 from hd)]
  have hphi : phiC g (seededCavity g next) = 2 * (g.nextId - 1) + 1 := rfl
  have hflagc : flagC c = 1 := by
    unfold flagC
    rw [if_neg hcd]
  unfold valC
  rw [hflag, hphi, hflagc]
  exact natReanchor g.nextId (phiC g c) hN

/-- Gluing a fuel-independent `expand` step onto the rest of the neighbor
loop. -/
theorem glueStep (g : Graph) (c cX : Cavity) (node next : GNode)
    (rest : List GNode)
    (hexp : ∀ F : Nat, run g (F + 1) (BuildCall.expand c node next) = Res.ok cX)
    (fr : Nat) (c' : Cavity)
    (hrest : run g fr (BuildCall.expandList cX node rest) = Res.ok c') :
    run g (fr + 2) (BuildCall.expandList c node (next :: rest)) = Res.ok c' := by
  rw [run_expandList_cons, hexp fr]
  exact run_mono_le g fr (fr + 1) _ c' (Nat.le_succ fr) hrest

/-- The neighbor loop terminates, preserves the invariant and never
increases the measure, given that `build` does so on every state of smaller
measure. -/
theorem expandList_total (g : Graph) (hWF : edgesBounded g)
    (hNOS : noObtuseSegs g) (V : Nat)
    (hIH : ∀ c2 : Cavity, CavInv g c2 → valC g c2 < V →
      ∃ fuel c3, run g fuel (BuildCall.build c2) = Res.ok c3 ∧ CavInv g c3 ∧
        valC g c3 ≤ valC g c2) :
    ∀ (nbrs : List GNode) (c : Cavity) (node : GNode),
      (∀ x ∈ nbrs, x < g.nextId) → CavInv g c → valC g c < V →
      ∃ fuel c', run g fuel (BuildCall.expandList c node nbrs) = Res.ok c' ∧
        CavInv g c' ∧ valC g c' ≤ valC g c := by
  intro nbrs
  induction nbrs with
  | nil =>
    intro c node _ hinv _
    exact ⟨1, c, run_expandList_nil g 0 c node, hinv, Nat.le_refl _⟩
  | cons next rest ihl =>
    intro c node hb hinv hval
    have hnext : next < g.nextId := hb next (List.mem_cons_self next rest)
    have hbrest : ∀ x ∈ rest, x < g.nextId :=
      fun x hx => hb x (List.mem_cons_of_mem next hx)
    by_cases hguard : ((!(c.dim == 2 && (g.getData next).dim == 2 &&
        next != c.centerNode)) && (g.getData next).inCircle c.center) = true
    · by_cases hre : ((g.getData next).dim == 2 && c.dim != 2) = true
      · -- an encroaching segment: re-anchor and re-build
        have hd2 : (g.getData next).dim = 2 := ((reanchor_guard_iff g c next).mp hre).1
        have hcd : c.dim ≠ 2 := ((reanchor_guard_iff g c next).mp hre).2
        have hfresh : CavInv g (seededCavity g next) :=
          initCavity_inv g hWF 0 c (seededCavity g next) next hnext
            (initCavity_seg g hNOS 0 c next hd2)
        have hlt : valC g (seededCavity g next) < valC g c :=
          valC_seeded_lt g c next hnext hd2 hcd
        obtain ⟨fb, cB, hbuild, hinvB, hvalB⟩ :=
          hIH (seededCavity g next) hfresh (lt_trans hlt hval)
        have hvalB_le : valC g cB ≤ valC g c := le_of_lt (lt_of_le_of_lt hvalB hlt)
        obtain ⟨fr, c', hrest, hinv', hval'⟩ :=
          ihl cB node hbrest hinvB (lt_of_le_of_lt hvalB_le hval)
        refine ⟨max fb fr + 2, c', ?_, hinv', le_trans hval' hvalB_le⟩
        rw [run_expandList_cons]
        have hexp : run g (max fb fr + 1) (BuildCall.expand c node next) =
            Res.ok cB := by
          show expand g (max fb fr + 1) c node next = Res.ok cB
          rw [expand_unfold, if_pos hguard, if_pos hre,
            initCavity_seg g hNOS (max fb fr) c next hd2]
          exact run_mono_le g fb (max fb fr) _ cB (Nat.le_max_left fb fr) hbuild
        rw [hexp]
        exact run_mono_le g fr (max fb fr + 1) _ c'
          (le_trans (Nat.le_max_right fb fr) (Nat.le_succ _)) hrest
      · by_cases hin : next ∈ c.pre
        · -- already a member: nothing changes
          have hexp : ∀ F : Nat,
              run g (F + 1) (BuildCall.expand c node next) = Res.ok c := fun F => by
            show expand g (F + 1) c node next = Res.ok c
            rw [expand_unfold, if_pos hguard, if_neg hre, if_pos hin]
          obtain ⟨fr, c', hrest, hinv', hval'⟩ := ihl c node hbrest hinv hval
          exact ⟨fr + 2, c', glueStep g c c node next rest hexp fr c' hrest,
            hinv', hval'⟩
        · -- a new member: `pre` grows, the measure drops
          have hexp : ∀ F : Nat, run g (F + 1) (BuildCall.expand c node next) =
              Res.ok (addMember c next) := fun F => by
            show expand g (F + 1) c node next = Res.ok (addMember c next)
            rw [expand_unfold, if_pos hguard, if_neg hre, if_neg hin]
            rfl
          have hinvD : CavInv g (addMember c next) :=
            run_inv g hWF 1 (BuildCall.expand c node next) _ (hexp 0)
              (by simpa [callCavity] using hinv) hnext
          have hlenD : c.pre.length + 1 ≤ g.nextId := by
            have hbl := nodup_bounded_length (addMember c next).pre g.nextId
              hinvD.2.1 hinvD.1
            simpa [addMember] using hbl
          have hvalD : valC g (addMember c next) + 1 = valC g c :=
            valC_add g c next hlenD
          obtain ⟨fr, c', hrest, hinv', hval'⟩ :=
            ihl (addMember c next) node hbrest hinvD (by omega)
          exact ⟨fr + 2, c', glueStep g c _ node next rest hexp fr c' hrest,
            hinv', by omega⟩
    · by_cases hbt : boundaryTuple g node next ∈ c.connections
      · -- boundary edge already recorded
        have hexp : ∀ F : Nat,
            run g (F + 1) (BuildCall.expand c node next) = Res.ok c := fun F => by
          show expand g (F + 1) c node next = Res.ok c
          rw [expand_unfold, if_neg hguard, if_pos hbt]
        obtain ⟨fr, c', hrest, hinv', hval'⟩ := ihl c node hbrest hinv hval
        exact ⟨fr + 2, c', glueStep g c c node next rest hexp fr c' hrest,
          hinv', hval'⟩
      · -- record the boundary edge; the measure ignores `connections`
        have hexp : ∀ F : Nat, run g (F + 1) (BuildCall.expand c node next) =
            Res.ok (addConn c (boundaryTuple g node next)) := fun F => by
          show expand g (F + 1) c node next =
            Res.ok (addConn c (boundaryTuple g node next))
          rw [expand_unfold, if_neg hguard, if_neg hbt]
          rfl
        have hinvA : CavInv g (addConn c (boundaryTuple g node next)) := hinv
        have hvalA : valC g (addConn c (boundaryTuple g node next)) = valC g c := rfl
        obtain ⟨fr, c', hrest, hinv', hval'⟩ :=
          ihl (addConn c (boundaryTuple g node next)) node hbrest hinvA (by omega)
        exact ⟨fr + 2, c', glueStep g c _ node next rest hexp fr c' hrest,
          hinv', by omega⟩

/-- `build` terminates on every state satisfying the cavity invariant,
preserving it and never increasing the measure. -/
theorem build_total (g : Graph) (hWF : edgesBounded g) (hNOS : noObtuseSegs g) :
    ∀ (V : Nat) (c : Cavity), CavInv g c → valC g c ≤ V →
      ∃ fuel c', run g fuel (BuildCall.build c) = Res.ok c' ∧ CavInv g c' ∧
        valC g c' ≤ valC g c := by
  intro V
  induction V with
  | zero =>
    intro c hinv hval
    have hf0 : c.frontier.length = 0 := by
      have h := hval
      unfold valC phiC at h
      exact natZero (flagC c * (3 * g.nextId + 1))
        (2 * (g.nextId - c.pre.length)) c.frontier.length h
    have hfr : c.frontier.getLast? = none := by
      rw [List.length_eq_zero.mp hf0]
      rfl
    exact ⟨1, c, run_build_none g 0 c hfr, hinv, Nat.le_refl _⟩
  | succ V ihV =>
    intro c hinv hval
    cases hfr : c.frontier.getLast? with
    | none => exact ⟨1, c, run_build_none g 0 c hfr, hinv, Nat.le_refl _⟩
    | some curr =>
      obtain ⟨i1, i2, i3, i4, i5, i6⟩ := hinv
      have hinv1 : CavInv g { c with frontier := c.frontier.dropLast } :=
        ⟨i1, i2, fun n hn => i3 n (List.dropLast_subset c.frontier hn),
          i4.sublist (List.dropLast_sublist c.frontier), i5, i6⟩
      have hfe : 1 ≤ c.frontier.length := by
        rcases Nat.eq_zero_or_pos c.frontier.length with h0 | h1
        · rw [List.length_eq_zero.mp h0] at hfr
          cases hfr
        · exact h1
      have hval1 : valC g { c with frontier := c.frontier.dropLast } + 1 =
          valC g c := valC_pop g c hfe
      have hIH : ∀ c2 : Cavity, CavInv g c2 → valC g c2 < valC g c →
          ∃ fuel c3, run g fuel (BuildCall.build c2) = Res.ok c3 ∧ CavInv g c3 ∧
            valC g c3 ≤ valC g c2 :=
        fun c2 h2 hlt => ihV c2 h2 (by omega)
      obtain ⟨fe, c2, hel, hinv2, hval2⟩ :=
        expandList_total g hWF hNOS (valC g c) hIH (g.neighbors curr)
          { c with frontier := c.frontier.dropLast } curr
          (fun x hx => neighbors_lt g hWF curr x hx) hinv1 (by omega)
      obtain ⟨fb, c3, hbl, hinv3, hval3⟩ := ihV c2 hinv2 (by omega)
      refine ⟨max fe fb + 1, c3, ?_, hinv3, by omega⟩
      rw [run_build_some g (max fe fb) c curr hfr,
        run_mono_le g fe (max fe fb) _ c2 (Nat.le_max_left fe fb) hel]
      exact run_mono_le g fb (max fe fb) _ c3 (Nat.le_max_right fe fb) hbl

/-- C10: on any (finite) graph whose segment elements are never obtuse,
`build()` terminates from any state produced by `initialize`: within one
anchoring each node enters `frontier` only when first added to the
duplicate-free, bounded `pre`, and a re-anchoring `initialize` leaves the
cavity anchored on a segment, after which no further re-anchoring is
possible — all captured by the decreasing measure `valC`. -/
theorem build_terminates (g : Graph) (fuel0 : Nat) (c0 c1 : Cavity)
    (node : GNode) (hWF : edgesBounded g) (hNOS : noObtuseSegs g)
    (hnode : node < g.nextId) (h1 : initCavity g fuel0 c0 node = Res.ok c1) :
    ∃ fuel c2, build g fuel c1 = Res.ok c2 := by
  have hinv := initCavity_inv g hWF fuel0 c0 c1 node hnode h1
  obtain ⟨fuel, c2, h, _, _⟩ :=
    build_total g hWF hNOS (valC g c1) c1 hinv (Nat.le_refl _)
  exact ⟨fuel, c2, h⟩

/-- Witness for C10 at a concrete mesh. -/
theorem build_terminates_witness :
    ∃ fuel c2, build gMesh fuel (seededCavity gMesh 0) = Res.ok c2 :=
  build_terminates gMesh 5 emptyCavity (seededCavity gMesh 0) 0
    (by decide) (by decide) (by decide) (by decide)

end Galois
